import Mathlib

/-!
Shallow embedding of two source files of the gaffer repository:

* `GafferScene/SubTree.cpp` — the `SubTree` scene processor: re-rooting of
  scene evaluation (`sourcePath`, the per-facet `compute` methods, the
  per-facet `hash` policy and `computeGlobals`).
* `Gaffer/Reference.cpp` — the `Reference` node: `load`, `loadInternal`,
  `copyInputsAndValues` and `isReferencePlug`.

Strings are modelled as lists of characters and scene paths as lists of
names.  Collaborator values whose contents the code never inspects
(bounds, transforms, hashes, metadata payloads, plug values) are modelled
by type parameters or by `Nat`.
-/

/-- A C++ `std::string`, modelled as a list of characters. -/
abbrev Str : Type := List Char

/-- A scene path (`SceneNode::ScenePath`): an ordered list of location names. -/
abbrev ScenePath : Type := List Str

/-- Modelled from the spec: the reference tokenization of the spec text.
Split a string at every `'/'`, keeping the possibly empty segments;
returns the first segment and the remaining segments. -/
def splitOnSep : Str → Str × List Str
  | [] => ([], [])
  | c :: rest =>
    let r := splitOnSep rest
    if c = '/' then ([], r.1 :: r.2) else (c :: r.1, r.2)

/-- Modelled from the spec: "tokenized on '/' into a path sequence; empty
segments from leading/trailing/duplicate separators are dropped". -/
def specTokens (s : Str) : List Str :=
  ((splitOnSep s).1 :: (splitOnSep s).2).filter (fun t => !t.isEmpty)

namespace SubTree

/-- The scan performed by `boost::tokenizer` with `char_separator("/")`
as iterated in `SubTree::sourcePath`: walk the characters, skipping
separator characters and emitting every maximal run of non-separator
characters as one token.  `acc` holds the characters of the current
token, in reverse order. -/
def tokenizeAux : Str → Str → List Str
  | [], acc => if acc.isEmpty then [] else [acc.reverse]
  | c :: rest, acc =>
    if c = '/' then
      if acc.isEmpty then tokenizeAux rest [] else acc.reverse :: tokenizeAux rest []
    else
      tokenizeAux rest (c :: acc)

/-- The token sequence produced by the tokenizer loop in `SubTree::sourcePath`. -/
def tokenize (s : Str) : List Str := tokenizeAux s []

/-- `SubTree::sourcePath`: tokenize the value of `rootPlug()` on `'/'`
and append the output path. -/
def sourcePath (rootAsString : Str) (outputPath : ScenePath) : ScenePath :=
  tokenize rootAsString ++ outputPath

/-- The per-location facets of the input scene, as read by `SubTree`
through `inPlug()->bound/transform/attributes/object/childNames`.
The facet value types are parameters: the code never inspects them. -/
structure InputScene (Box Mat Attr Obj Names : Type) where
  bound : ScenePath → Box
  transform : ScenePath → Mat
  attributes : ScenePath → Attr
  object : ScenePath → Obj
  childNames : ScenePath → Names

/-- `SubTree::computeBound`. -/
def computeBound {Box Mat Attr Obj Names : Type} (inp : InputScene Box Mat Attr Obj Names)
    (root : Str) (path : ScenePath) : Box :=
  inp.bound (sourcePath root path)

/-- `SubTree::computeTransform`. -/
def computeTransform {Box Mat Attr Obj Names : Type} (inp : InputScene Box Mat Attr Obj Names)
    (root : Str) (path : ScenePath) : Mat :=
  inp.transform (sourcePath root path)

/-- `SubTree::computeAttributes`. -/
def computeAttributes {Box Mat Attr Obj Names : Type} (inp : InputScene Box Mat Attr Obj Names)
    (root : Str) (path : ScenePath) : Attr :=
  inp.attributes (sourcePath root path)

/-- `SubTree::computeObject`. -/
def computeObject {Box Mat Attr Obj Names : Type} (inp : InputScene Box Mat Attr Obj Names)
    (root : Str) (path : ScenePath) : Obj :=
  inp.object (sourcePath root path)

/-- `SubTree::computeChildNames`. -/
def computeChildNames {Box Mat Attr Obj Names : Type} (inp : InputScene Box Mat Attr Obj Names)
    (root : Str) (path : ScenePath) : Names :=
  inp.childNames (sourcePath root path)

/-- The facet hashes of the input scene, as read by `SubTree::hash`
through `inPlug()->boundHash/transformHash/attributesHash/objectHash/childNamesHash`.
Hash digests are modelled as `Nat`. -/
structure InputSceneHashes where
  boundHash : ScenePath → Nat
  transformHash : ScenePath → Nat
  attributesHash : ScenePath → Nat
  objectHash : ScenePath → Nat
  childNamesHash : ScenePath → Nat

/-- `SubTree::hash` for the bound facet: `h` is overwritten with the input
bound hash at the source path.  `base` is the value of `h` after the
`SceneProcessor::hash` call. -/
def hashBound (inp : InputSceneHashes) (root : Str) (path : ScenePath) (base : Nat) : Nat :=
  inp.boundHash (sourcePath root path)

/-- `SubTree::hash` for the transform facet: the input transform hash at
the source path overwrites `h` only when `path.size()` is non-zero. -/
def hashTransform (inp : InputSceneHashes) (root : Str) (path : ScenePath) (base : Nat) : Nat :=
  if path.isEmpty then base else inp.transformHash (sourcePath root path)

/-- `SubTree::hash` for the attributes facet: guarded by `path.size()`. -/
def hashAttributes (inp : InputSceneHashes) (root : Str) (path : ScenePath) (base : Nat) : Nat :=
  if path.isEmpty then base else inp.attributesHash (sourcePath root path)

/-- `SubTree::hash` for the object facet: guarded by `path.size()`. -/
def hashObject (inp : InputSceneHashes) (root : Str) (path : ScenePath) (base : Nat) : Nat :=
  if path.isEmpty then base else inp.objectHash (sourcePath root path)

/-- `SubTree::hash` for the child-names facet: always overwritten. -/
def hashChildNames (inp : InputSceneHashes) (root : Str) (path : ScenePath) (base : Nat) : Nat :=
  inp.childNamesHash (sourcePath root path)

/-- A member of the globals `CompoundObject`: either `CompoundData`
(a map from path strings to values, the shape of the forward-declarations
entry) or some other object.  Payload values are modelled as `Nat`. -/
inductive Member where
  | compound (entries : List (Str × Nat))
  | other (v : Nat)
deriving DecidableEq

/-- The globals `CompoundObject`: named members in order. -/
abbrev Globals := List (Str × Member)

/-- The key of the forward-declarations member. -/
def forwardDeclarationsKey : Str := "gaffer:forwardDeclarations".data

/-- `CompoundObject::member<CompoundData>( name )`: the first entry for
`name`, when present and of `CompoundData` type. -/
def member (g : Globals) (n : Str) : Option (List (Str × Nat)) :=
  match g with
  | [] => none
  | e :: rest =>
    if e.1 == n then
      match e.2 with
      | Member.compound entries => some entries
      | Member.other _ => none
    else member rest n

/-- `std::string( s, pos )`: the suffix of `s` starting at index `pos`;
throws `std::out_of_range` when `pos` exceeds `s.size()`. -/
def substrFrom (s : Str) (pos : Nat) : Except String Str :=
  if pos ≤ s.length then Except.ok (List.drop pos s) else Except.error "std::out_of_range"

/-- The key-rewriting loop of `SubTree::computeGlobals`: each forward
declaration key has its first `root.size()` characters removed by
`std::string( inputPath, root.size() )`. -/
def rewriteKeys (root : Str) : List (Str × Nat) → Except String (List (Str × Nat))
  | [] => Except.ok []
  | e :: rest => do
    let k ← substrFrom e.1 root.length
    let rest' ← rewriteKeys root rest
    Except.ok ((k, e.2) :: rest')

/-- `result->members()[name] = m`: replace the entry for `name` in place,
or append it when absent. -/
def setMember (g : Globals) (n : Str) (m : Member) : Globals :=
  if g.any (fun e => e.1 == n) then
    g.map (fun e => if e.1 == n then (n, m) else e)
  else
    g ++ [(n, m)]

/-- `SubTree::computeGlobals`: copy the input globals; when a
forward-declarations `CompoundData` member is present, rebuild it with
every key cut down by the raw root string's length. -/
def computeGlobals (inGlobals : Globals) (root : Str) : Except String Globals :=
  match member inGlobals forwardDeclarationsKey with
  | none => Except.ok inGlobals
  | some fd => do
    let fd' ← rewriteKeys root fd
    Except.ok (setMember inGlobals forwardDeclarationsKey (Member.compound fd'))

end SubTree

/-- A plug hierarchy, as traversed by `copyInputsAndValues` in
`Gaffer/Reference.cpp`.  `input` is the identity of the plug connected as
input (`getInput()`); `val` is `some (current, default)` for a `ValuePlug`
(`isSetToDefault()` compares the two) and `none` for a plug that is not a
`ValuePlug`; `children` are the named child plugs in order. -/
inductive Plug where
  | mk (input : Option Nat) (val : Option (Nat × Nat)) (children : List (Str × Plug))

/-- `Plug::getInput()`. -/
def Plug.input : Plug → Option Nat
  | .mk i _ _ => i

/-- The `(value, defaultValue)` pair of a `ValuePlug`. -/
def Plug.val : Plug → Option (Nat × Nat)
  | .mk _ v _ => v

/-- `GraphComponent::children()`. -/
def Plug.children : Plug → List (Str × Plug)
  | .mk _ _ c => c

/-- `GraphComponent::getChild<Plug>( name )`. -/
def Plug.getChild (p : Plug) (n : Str) : Option Plug :=
  match p.children.find? (fun e => e.1 == n) with
  | some e => some e.2
  | none => none

/-- `copyInputsAndValues` from the anonymous namespace of
`Gaffer/Reference.cpp`: if the source plug has an input, connect the
destination to that same input and return (the values below are left
untouched); otherwise at a leaf destination clear the destination input
and copy the source value unless `ignoreDefaultValues` is set and the
source value is at its default; otherwise recurse into the destination's
children, matching source children by name. -/
def copyInputsAndValues (srcPlug dstPlug : Plug) (ignoreDefaultValues : Bool) : Plug :=
  match srcPlug.input with
  | some i => Plug.mk (some i) dstPlug.val dstPlug.children
  | none =>
    if dstPlug.children.isEmpty then
      match srcPlug.val, dstPlug.val with
      | some sv, some dv =>
        if !ignoreDefaultValues || sv.1 != sv.2 then
          Plug.mk none (some (sv.1, dv.2)) dstPlug.children
        else
          Plug.mk none (some dv) dstPlug.children
      | _, _ => Plug.mk none dstPlug.val dstPlug.children
    else
      Plug.mk dstPlug.input dstPlug.val
        (dstPlug.children.attach.map (fun e =>
          match Plug.getChild srcPlug e.1.1 with
          | some srcChild => (e.1.1, copyInputsAndValues srcChild e.1.2 ignoreDefaultValues)
          | none => e.1))
termination_by sizeOf dstPlug
decreasing_by
  cases dstPlug with
  | mk i v cs =>
    have h1 : sizeOf e.1 < sizeOf cs := List.sizeOf_lt_of_mem e.2
    simp only [Plug.children] at h1
    cases hp : e.1 with
    | mk n c =>
      rw [hp] at h1
      simp only [Prod.mk.sizeOf_spec] at h1
      simp only [hp, Plug.mk.sizeOf_spec]
      omega

namespace Reference

/-- `boost::starts_with( s, test )`. -/
def startsWith : Str → Str → Bool
  | _, [] => true
  | [], _ :: _ => false
  | c :: s, d :: p => c == d && startsWith s p

/-- `Reference::isReferencePlug`, for a plug lying at relative path
`a :: rest` below the reference node: `a` is the name of the plug's
ancestor that is a direct child of the node (the plug itself when
`rest = []`), `dynamic` is the plug's `Plug::Dynamic` flag, and
`userPlugName` is the name of the node's built-in user plug, so that
`a :: rest = [userPlugName]` models the `plug == userPlug()` test and
`a = userPlugName` models the `ancestorPlug == userPlug()` test. -/
def isReferencePlug (userPlugName : Str) (path : List Str) (dynamic : Bool) : Bool :=
  match path with
  | [] => true
  | a :: rest =>
    if startsWith a "__".data then false
    else if a == userPlugName && rest.isEmpty then false
    else if a == userPlugName && dynamic then false
    else true

/-- Lines 271-281 of `Gaffer/Reference.cpp`: the legacy-compatibility
flag computed from the serialiser version metadata of the loaded content. -/
def versionPriorTo09 (milestoneVersion majorVersion : Int) : Bool :=
  milestoneVersion == 0 && decide (majorVersion < 9)

/-- The `ignoreDefaultValues` argument that `Reference::loadInternal`
passes to `copyInputsAndValues` (line 295). -/
def loadIgnoreDefaultValues (milestoneVersion majorVersion : Int) : Bool :=
  !versionPriorTo09 milestoneVersion majorVersion

/-- The observable actions of one `Reference::loadInternal` run, in
program order. -/
inductive LoadEvent where
  | renamedPlug (name : Str)
  | removedChildNode (index : Nat)
  | executedFile (file : Str)
  | transferredPlug (name : Str)
  | warned (name : Str)
  | removedOldPlug (name : Str)
  | setFileName (file : Str)
  | firedReferenceLoadedSignal (node : Nat)
deriving DecidableEq

/-- The external collaborators of a single `loadInternal` run: whether
`ScriptNode::executeFile` records errors, whether `descendant<Plug>(name)`
finds a matching freshly loaded plug for an old plug name, and whether
the per-plug transfer throws. -/
structure LoadOracle where
  scriptErrors : Bool
  newPlugFor : Str → Bool
  transferThrows : Str → Bool

/-- One iteration of the reconciliation loop of `Reference::loadInternal`
(lines 285-313): when a matching new plug exists, the transfer either
succeeds or throws, and a thrown exception is caught and logged as a
warning; in every case the old plug is removed afterwards. -/
def transferStep (orc : LoadOracle) (name : Str) : List LoadEvent :=
  (if orc.newPlugFor name then
    (if orc.transferThrows name then [LoadEvent.warned name] else [LoadEvent.transferredPlug name])
  else []) ++ [LoadEvent.removedOldPlug name]

/-- `Reference::loadInternal` as a trace semantics.  Given the node
identity, the names of the reference plugs present before the load, the
number of existing child nodes, the collaborator oracle, and the file
name, it returns the new `m_fileName`, the ordered list of observable
events, and whether the final `throw Exception( ... )` fires.  Mirrors
the program order of the source: rename old plugs, remove child nodes,
execute the file (skipped for an empty name), reconcile each old plug,
record `m_fileName`, fire `referenceLoadedSignal`, then raise when the
script execution recorded errors. -/
def loadInternal (self : Nat) (previousPlugNames : List Str) (childNodeCount : Nat)
    (orc : LoadOracle) (fileName : Str) : Str × List LoadEvent × Bool :=
  let renames := previousPlugNames.map LoadEvent.renamedPlug
  let removals := (List.range childNodeCount).map LoadEvent.removedChildNode
  let execs := if fileName.isEmpty then [] else [LoadEvent.executedFile fileName]
  let errors := if fileName.isEmpty then false else orc.scriptErrors
  let reconcile := (previousPlugNames.map (transferStep orc)).flatten
  (fileName,
   renames ++ removals ++ execs ++ reconcile ++
     [LoadEvent.setFileName fileName, LoadEvent.firedReferenceLoadedSignal self],
   errors)

/-- `Reference::load`: without an owning `ScriptNode` it throws
immediately, performing no action at all; otherwise it enacts
`loadInternal`. -/
def load (script : Option Unit) (self : Nat) (previousPlugNames : List Str)
    (childNodeCount : Nat) (orc : LoadOracle) (fileName : Str) :
    Except String (Str × List LoadEvent × Bool) :=
  match script with
  | none => Except.error "Reference::load called without ScriptNode"
  | some _ => Except.ok (loadInternal self previousPlugNames childNodeCount orc fileName)

end Reference

/-- A concrete input scene: every facet is `7` at location `["A"]` and
`0` elsewhere. -/
def demoScene : SubTree.InputScene Nat Nat Nat Nat Nat where
  bound := fun p => if p = ["A".data] then 7 else 0
  transform := fun p => if p = ["A".data] then 7 else 0
  attributes := fun p => if p = ["A".data] then 7 else 0
  object := fun p => if p = ["A".data] then 7 else 0
  childNames := fun p => if p = ["A".data] then 7 else 0

/-- A load run whose script execution records errors. -/
def demoOracle : Reference.LoadOracle where
  scriptErrors := true
  newPlugFor := fun _ => false
  transferThrows := fun _ => false

/-- A concrete globals object: one forward declaration keyed under `"/r"`
and one unrelated member. -/
def demoGlobals : SubTree.Globals :=
  [(SubTree.forwardDeclarationsKey, SubTree.Member.compound [("/r/a".data, 1)]),
   ("x".data, SubTree.Member.other 2)]

/-- A load run in which the old plug `"p"` has a matching new plug whose
transfer throws, while `"q"` has no matching new plug. -/
def demoOracle2 : Reference.LoadOracle where
  scriptErrors := false
  newPlugFor := fun n => n == "p".data
  transferThrows := fun _ => true

/-! ## Helper lemmas -/

theorem tokenizeAux_eq (cs : Str) : ∀ acc : Str,
    SubTree.tokenizeAux cs acc =
      ((acc.reverse ++ (splitOnSep cs).1) :: (splitOnSep cs).2).filter (fun t => !t.isEmpty) := by
  induction cs with
  | nil =>
    intro acc
    cases acc with
    | nil => simp [SubTree.tokenizeAux, splitOnSep]
    | cons c acc' => simp [SubTree.tokenizeAux, splitOnSep]
  | cons c rest ih =>
    intro acc
    by_cases hc : c = '/'
    · subst hc
      cases acc with
      | nil =>
        simp [SubTree.tokenizeAux, splitOnSep, ih []]
      | cons a acc' =>
        simp [SubTree.tokenizeAux, splitOnSep, ih []]
    · simp only [SubTree.tokenizeAux, splitOnSep, if_neg hc]
      rw [ih (c :: acc)]
      simp [List.append_assoc]

theorem tokenize_eq_specTokens (s : Str) : SubTree.tokenize s = specTokens s := by
  simpa [specTokens] using tokenizeAux_eq s []

/-! ## Claim theorems -/

/-- Claim C1: for a `SubTree` configured with root string `R`, each of
`computeBound`, `computeTransform`, `computeAttributes`, `computeObject`
and `computeChildNames` at an output path `p` returns the input scene's
corresponding facet value at the source path obtained by tokenizing `R`
on `'/'` (dropping the empty segments that leading, trailing or duplicate
separators would produce) and appending `p`. -/
theorem subTree_computes_reroot {Box Mat Attr Obj Names : Type}
    (inp : SubTree.InputScene Box Mat Attr Obj Names) (root : Str) (p : ScenePath) :
    SubTree.computeBound inp root p = inp.bound (specTokens root ++ p) ∧
    SubTree.computeTransform inp root p = inp.transform (specTokens root ++ p) ∧
    SubTree.computeAttributes inp root p = inp.attributes (specTokens root ++ p) ∧
    SubTree.computeObject inp root p = inp.object (specTokens root ++ p) ∧
    SubTree.computeChildNames inp root p = inp.childNames (specTokens root ++ p) := by
  refine ⟨?_, ?_, ?_, ?_, ?_⟩ <;>
    simp [SubTree.computeBound, SubTree.computeTransform, SubTree.computeAttributes,
      SubTree.computeObject, SubTree.computeChildNames, SubTree.sourcePath,
      tokenize_eq_specTokens]

/-- Claim C2 (evidence of the code bug): the `SubTree::hash` side does
resolve the transform/attributes/object facets at the empty output path
to the base hash, independent of the input hashes at the tokenized root —
but the corresponding `compute` methods forward the input's value at the
tokenized root unconditionally, so the value at the virtual root is the
input's value at `R` rather than a default/identity value.  At the
concrete failing input `root = "A"`, `path = []`, with the input holding
`7` at `["A"]` (identity being `0` elsewhere), the computed transform is
the forwarded `7`. -/
theorem subTree_root_value_forwarded :
    (∀ (inp : SubTree.InputSceneHashes) (root : Str) (base : Nat),
        SubTree.hashTransform inp root [] base = base ∧
        SubTree.hashAttributes inp root [] base = base ∧
        SubTree.hashObject inp root [] base = base) ∧
    (∀ {Box Mat Attr Obj Names : Type} (inp : SubTree.InputScene Box Mat Attr Obj Names)
        (root : Str),
        SubTree.computeTransform inp root [] = inp.transform (SubTree.tokenize root) ∧
        SubTree.computeAttributes inp root [] = inp.attributes (SubTree.tokenize root) ∧
        SubTree.computeObject inp root [] = inp.object (SubTree.tokenize root)) ∧
    (SubTree.computeTransform demoScene "A".data [] = 7 ∧
     SubTree.computeAttributes demoScene "A".data [] = 7 ∧
     SubTree.computeObject demoScene "A".data [] = 7 ∧
     demoScene.transform [] = 0) := by
  refine ⟨?_, ?_, ?_⟩
  · intro inp root base
    refine ⟨?_, ?_, ?_⟩ <;>
      simp [SubTree.hashTransform, SubTree.hashAttributes, SubTree.hashObject]
  · intro Box Mat Attr Obj Names inp root
    refine ⟨?_, ?_, ?_⟩ <;>
      simp [SubTree.computeTransform, SubTree.computeAttributes, SubTree.computeObject,
        SubTree.sourcePath]
  · refine ⟨?_, ?_, ?_, ?_⟩ <;>
      simp [SubTree.computeTransform, SubTree.computeAttributes, SubTree.computeObject,
        SubTree.sourcePath, SubTree.tokenize, SubTree.tokenizeAux, demoScene]

/-- Claim C5: for a plug of a `Reference` node at relative path
`a :: rest` (so `a` names its ancestor that is a direct child of the
node), `isReferencePlug` returns `true` exactly when that ancestor's name
does not start with the reserved `"__"` prefix, the plug is not the
node's user-parameter container itself, and the plug is not nested under
that container while marked dynamic. -/
theorem reference_isReferencePlug_iff (u a : Str) (rest : List Str) (dyn : Bool) :
    Reference.isReferencePlug u (a :: rest) dyn = true ↔
      (¬ Reference.startsWith a "__".data = true ∧
       ¬ (a = u ∧ rest = []) ∧
       ¬ (a = u ∧ dyn = true)) := by
  cases hA : Reference.startsWith a "__".data <;>
    cases hu : a == u <;>
      cases hre : rest.isEmpty <;>
        cases dyn <;>
          simp_all [Reference.isReferencePlug, List.isEmpty_iff]

/-- Claim C4: `copyInputsAndValues` gives a connection precedence over a
value (when the old plug has an input, the new plug is connected to that
input and no value below it is touched); at a leaf plug with no
connection the old value is copied onto the new plug unless it equals the
plug's default and the legacy-compatibility flag is off; and the flag
used by `Reference::loadInternal` is on exactly when the loaded content's
milestone version is `0` and its major version is below `9`. -/
theorem copyInputsAndValues_spec :
    (∀ (src dst : Plug) (ign : Bool) (i : Nat), src.input = some i →
        copyInputsAndValues src dst ign = Plug.mk (some i) dst.val dst.children) ∧
    (∀ (sv dv : Nat × Nat) (sch : List (Str × Plug)) (di : Option Nat) (m M : Int),
        copyInputsAndValues (Plug.mk none (some sv) sch) (Plug.mk di (some dv) [])
            (Reference.loadIgnoreDefaultValues m M) =
          Plug.mk none
            (some ((if sv.1 = sv.2 ∧ Reference.versionPriorTo09 m M = false then dv.1 else sv.1),
              dv.2)) []) ∧
    (∀ m M : Int, Reference.versionPriorTo09 m M = true ↔ (m = 0 ∧ M < 9)) := by
  refine ⟨?_, ?_, ?_⟩
  · intro src dst ign i h
    rw [copyInputsAndValues]
    simp [h]
  · intro sv dv sch di m M
    rw [copyInputsAndValues]
    cases hv : Reference.versionPriorTo09 m M <;>
      by_cases hsd : sv.1 = sv.2 <;>
        simp [Plug.input, Plug.val, Plug.children, Reference.loadIgnoreDefaultValues, hv, hsd]
  · intro m M
    simp [Reference.versionPriorTo09]

/-- Witness for C4: concrete instances of the three parts. -/
theorem copyInputsAndValues_spec_witness :
    (Plug.mk (some 5) none []).input = some 5 ∧
    copyInputsAndValues (Plug.mk (some 5) none []) (Plug.mk none (some (1, 2)) []) true =
      Plug.mk (some 5) (some (1, 2)) [] ∧
    copyInputsAndValues (Plug.mk none (some (3, 3)) []) (Plug.mk none (some (4, 2)) [])
        (Reference.loadIgnoreDefaultValues 0 5) =
      Plug.mk none (some (3, 2)) [] ∧
    (Reference.versionPriorTo09 0 5 = true ↔ ((0 : Int) = 0 ∧ (5 : Int) < 9)) := by
  refine ⟨rfl, ?_, ?_, ?_⟩
  · exact copyInputsAndValues_spec.1 (Plug.mk (some 5) none []) (Plug.mk none (some (1, 2)) [])
      true 5 rfl
  · have h := copyInputsAndValues_spec.2.1 (3, 3) (4, 2) [] none 0 5
    simpa [Reference.versionPriorTo09] using h
  · exact copyInputsAndValues_spec.2.2 0 5

theorem drop_append_self (l₁ l₂ : List Char) : List.drop l₁.length (l₁ ++ l₂) = l₂ := by
  induction l₁ with
  | nil => simp
  | cons c l ih => simpa using ih

theorem rewriteKeys_ok (root : Str) (fd : List (Str × Nat))
    (h : ∀ e ∈ fd, root.length ≤ e.1.length) :
    SubTree.rewriteKeys root fd =
      Except.ok (fd.map (fun e => (List.drop root.length e.1, e.2))) := by
  induction fd with
  | nil => simp [SubTree.rewriteKeys]
  | cons e rest ih =>
    have h1 : root.length ≤ e.1.length := h e (by simp)
    have h2 : ∀ x ∈ rest, root.length ≤ x.1.length := fun x hx => h x (by simp [hx])
    simp [SubTree.rewriteKeys, SubTree.substrFrom, h1, ih h2, Bind.bind, Except.bind]

theorem find?_replace_ne (g : SubTree.Globals) (key n : Str) (m : SubTree.Member)
    (h : ¬ n = key) :
    (g.map (fun e => if e.1 == key then (key, m) else e)).find? (fun e => e.1 == n) =
      g.find? (fun e => e.1 == n) := by
  have hkn : (key == n) = false := beq_eq_false_iff_ne.mpr fun hk => h hk.symm
  induction g with
  | nil => simp
  | cons e g' ih =>
    rw [List.map_cons]
    by_cases he : e.1 = key
    · simpa [he, hkn, -List.find?_map] using ih
    · have hek : (e.1 == key) = false := beq_eq_false_iff_ne.mpr he
      by_cases hen : e.1 = n
      · simp [hek, hen, h, -List.find?_map]
      · have hen' : (e.1 == n) = false := beq_eq_false_iff_ne.mpr hen
        simpa [hek, hen', -List.find?_map] using ih

theorem find?_append_single_ne (g : SubTree.Globals) (key n : Str) (m : SubTree.Member)
    (h : ¬ n = key) :
    (g ++ [(key, m)]).find? (fun e => e.1 == n) = g.find? (fun e => e.1 == n) := by
  have hkn : (key == n) = false := beq_eq_false_iff_ne.mpr fun hk => h hk.symm
  simp [List.find?_append, hkn]

theorem setMember_find?_ne (g : SubTree.Globals) (key n : Str) (m : SubTree.Member)
    (h : ¬ n = key) :
    (SubTree.setMember g key m).find? (fun e => e.1 == n) = g.find? (fun e => e.1 == n) := by
  by_cases ha : g.any (fun e => e.1 == key)
  · simp only [SubTree.setMember, ha, if_true]
    exact find?_replace_ne g key n m h
  · simp only [SubTree.setMember, ha, if_false]
    exact find?_append_single_ne g key n m h

theorem member_replace_self (n : Str) (l : List (Str × Nat)) (g : SubTree.Globals)
    (ha : g.any (fun x => x.1 == n) = true) :
    SubTree.member (g.map (fun e => if e.1 == n then (n, SubTree.Member.compound l) else e)) n =
      some l := by
  induction g with
  | nil => simp at ha
  | cons e g' ih =>
    by_cases hen : e.1 = n
    · have hen' : (e.1 == n) = true := by simp [hen]
      simp [SubTree.member, hen']
    · have hen' : (e.1 == n) = false := beq_eq_false_iff_ne.mpr hen
      have ha' : g'.any (fun x => x.1 == n) = true := by
        rw [List.any_cons, hen', Bool.false_or] at ha
        exact ha
      simpa [SubTree.member, hen'] using ih ha'

theorem member_any (g : SubTree.Globals) (n : Str) (fd : List (Str × Nat))
    (h : SubTree.member g n = some fd) : g.any (fun x => x.1 == n) = true := by
  induction g with
  | nil => simp [SubTree.member] at h
  | cons e g' ih =>
    by_cases hen : (e.1 == n) = true
    · rw [List.any_cons, hen, Bool.true_or]
    · have hen' : (e.1 == n) = false := by simpa using hen
      have h' : SubTree.member g' n = some fd := by
        simpa [SubTree.member, hen'] using h
      rw [List.any_cons, ih h', Bool.or_true]

theorem member_setMember_self (g : SubTree.Globals) (n : Str) (l : List (Str × Nat))
    (fd : List (Str × Nat)) (h : SubTree.member g n = some fd) :
    SubTree.member (SubTree.setMember g n (SubTree.Member.compound l)) n = some l := by
  have ha : g.any (fun x => x.1 == n) = true := member_any g n fd h
  simp only [SubTree.setMember, ha, if_true]
  exact member_replace_self n l g ha

/-- Claim C3: when the input globals carry a forward-declarations map all
of whose keys extend the configured root string, `computeGlobals` returns
a copy of the input globals in which every forward-declaration key has
the root prefix stripped, and every other member is passed through
unchanged. -/
theorem subTree_computeGlobals_strips_root (inG : SubTree.Globals) (root : Str)
    (fd : List (Str × Nat))
    (hfd : SubTree.member inG SubTree.forwardDeclarationsKey = some fd)
    (hpre : ∀ e ∈ fd, ∃ t, e.1 = root ++ t) :
    SubTree.computeGlobals inG root =
      Except.ok (SubTree.setMember inG SubTree.forwardDeclarationsKey
        (SubTree.Member.compound (fd.map (fun e => (List.drop root.length e.1, e.2))))) ∧
    (∀ e ∈ fd, root ++ List.drop root.length e.1 = e.1) ∧
    SubTree.member
        (SubTree.setMember inG SubTree.forwardDeclarationsKey
          (SubTree.Member.compound (fd.map (fun e => (List.drop root.length e.1, e.2)))))
        SubTree.forwardDeclarationsKey =
      some (fd.map (fun e => (List.drop root.length e.1, e.2))) ∧
    (∀ n, ¬ n = SubTree.forwardDeclarationsKey →
      (SubTree.setMember inG SubTree.forwardDeclarationsKey
          (SubTree.Member.compound (fd.map (fun e => (List.drop root.length e.1, e.2))))).find?
          (fun e => e.1 == n) =
        inG.find? (fun e => e.1 == n)) := by
  have hlen : ∀ e ∈ fd, root.length ≤ e.1.length := by
    intro e he
    rcases hpre e he with ⟨t, ht⟩
    simp [ht]
  refine ⟨?_, ?_, ?_, ?_⟩
  · simp [SubTree.computeGlobals, hfd, rewriteKeys_ok root fd hlen, Bind.bind, Except.bind]
  · intro e he
    rcases hpre e he with ⟨t, ht⟩
    rw [ht, drop_append_self]
  · exact member_setMember_self inG SubTree.forwardDeclarationsKey _ fd hfd
  · intro n hn
    exact setMember_find?_ne inG SubTree.forwardDeclarationsKey n _ hn

/-- Witness for C3: a concrete globals object with one forward declaration
under root `"/r"` and one unrelated member. -/
theorem subTree_computeGlobals_strips_root_witness :
    SubTree.computeGlobals demoGlobals "/r".data =
      Except.ok (SubTree.setMember demoGlobals SubTree.forwardDeclarationsKey
        (SubTree.Member.compound
          ([("/r/a".data, (1 : Nat))].map (fun e => (List.drop ("/r".data).length e.1, e.2))))) ∧
    (∀ e ∈ [("/r/a".data, (1 : Nat))], "/r".data ++ List.drop ("/r".data).length e.1 = e.1) := by
  have h := subTree_computeGlobals_strips_root demoGlobals "/r".data [("/r/a".data, 1)]
    (by decide)
    (by
      intro e he
      rw [List.mem_singleton] at he
      exact ⟨"/a".data, by rw [he]; decide⟩)
  exact ⟨h.1, h.2.1⟩

/-- Claim C10: `computeGlobals` removes exactly `root.size()` leading
characters from every forward-declaration key without checking that they
equal the root string: it is total whenever every key is at least as long
as the root string (first and second parts, the second at an arbitrary
key with no prefix requirement), and for a key shorter than the root
string the substring construction throws (third part, a concrete run
reaching the error branch). -/
theorem subTree_computeGlobals_substr_unchecked :
    (∀ (inG : SubTree.Globals) (root : Str) (fd : List (Str × Nat)),
        SubTree.member inG SubTree.forwardDeclarationsKey = some fd →
        (∀ e ∈ fd, root.length ≤ e.1.length) →
        ∃ out, SubTree.computeGlobals inG root = Except.ok out) ∧
    (∀ (k : Str) (v : Nat) (root : Str), root.length ≤ k.length →
        SubTree.computeGlobals
            [(SubTree.forwardDeclarationsKey, SubTree.Member.compound [(k, v)])] root =
          Except.ok [(SubTree.forwardDeclarationsKey,
            SubTree.Member.compound [(List.drop root.length k, v)])]) ∧
    SubTree.computeGlobals
        [(SubTree.forwardDeclarationsKey, SubTree.Member.compound [("A".data, 0)])]
        "/root".data =
      Except.error "std::out_of_range" := by
  refine ⟨?_, ?_, ?_⟩
  · intro inG root fd hfd hlen
    refine ⟨SubTree.setMember inG SubTree.forwardDeclarationsKey
      (SubTree.Member.compound (fd.map (fun e => (List.drop root.length e.1, e.2)))), ?_⟩
    simp [SubTree.computeGlobals, hfd, rewriteKeys_ok root fd hlen, Bind.bind, Except.bind]
  · intro k v root hlen
    have hfd : SubTree.member
        [(SubTree.forwardDeclarationsKey, SubTree.Member.compound [(k, v)])]
        SubTree.forwardDeclarationsKey = some [(k, v)] := by
      simp [SubTree.member]
    have hkeys : ∀ e ∈ [(k, v)], root.length ≤ e.1.length := by
      intro e he
      rw [List.mem_singleton] at he
      rw [he]
      exact hlen
    simp [SubTree.computeGlobals, hfd, rewriteKeys_ok root [(k, v)] hkeys,
      Bind.bind, Except.bind, SubTree.setMember]
  · rfl

/-- Witness for C10: concrete instances of the first two parts. -/
theorem subTree_computeGlobals_substr_unchecked_witness :
    (∃ out, SubTree.computeGlobals demoGlobals "/r".data = Except.ok out) ∧
    SubTree.computeGlobals
        [(SubTree.forwardDeclarationsKey, SubTree.Member.compound [("XY".data, (3 : Nat))])]
        "ab".data =
      Except.ok [(SubTree.forwardDeclarationsKey,
        SubTree.Member.compound [(List.drop ("ab".data).length "XY".data, 3)])] := by
  refine ⟨?_, ?_⟩
  · exact subTree_computeGlobals_substr_unchecked.1 demoGlobals "/r".data [("/r/a".data, 1)]
      (by decide) (by decide)
  · exact subTree_computeGlobals_substr_unchecked.2.1 "XY".data 3 "ab".data (by decide)

theorem signal_not_mem_transferStep (orc : Reference.LoadOracle) (name : Str) (n : Nat) :
    Reference.LoadEvent.firedReferenceLoadedSignal n ∉ Reference.transferStep orc name := by
  cases h1 : orc.newPlugFor name <;> cases h2 : orc.transferThrows name <;>
    simp [Reference.transferStep, h1, h2]

/-- Claim C6: every `loadInternal` execution fires the reference-loaded
signal exactly once, with the reference node as its argument, as the very
last event — after every rename, child-node removal, script execution,
reconciliation step and the file-name record; the exception flag is
raised exactly when the script execution recorded errors, and the event
trace does not depend on that flag, so a caller that tolerates the
failure still observes the fully reconciled graph. -/
theorem reference_loadInternal_signal_once (self : Nat) (prev : List Str) (cnt : Nat)
    (orc : Reference.LoadOracle) (f : Str) :
    (∀ n : Nat,
      (Reference.loadInternal self prev cnt orc f).2.1.count
          (Reference.LoadEvent.firedReferenceLoadedSignal n) =
        if n = self then 1 else 0) ∧
    (Reference.loadInternal self prev cnt orc f).2.1.getLast? =
      some (Reference.LoadEvent.firedReferenceLoadedSignal self) ∧
    (Reference.loadInternal self prev cnt orc f).2.2 = (!f.isEmpty && orc.scriptErrors) ∧
    (∀ b : Bool,
      (Reference.loadInternal self prev cnt { orc with scriptErrors := b } f).2.1 =
        (Reference.loadInternal self prev cnt orc f).2.1) := by
  refine ⟨?_, ?_, ?_, ?_⟩
  · intro n
    simp only [Reference.loadInternal]
    rw [List.count_append, List.count_append, List.count_append, List.count_append]
    have h1 : (prev.map Reference.LoadEvent.renamedPlug).count
        (Reference.LoadEvent.firedReferenceLoadedSignal n) = 0 := by
      rw [List.count_eq_zero]
      simp
    have h2 : (((List.range cnt).map Reference.LoadEvent.removedChildNode)).count
        (Reference.LoadEvent.firedReferenceLoadedSignal n) = 0 := by
      rw [List.count_eq_zero]
      simp
    have h3 : (if f.isEmpty then ([] : List Reference.LoadEvent)
        else [Reference.LoadEvent.executedFile f]).count
        (Reference.LoadEvent.firedReferenceLoadedSignal n) = 0 := by
      cases hf : f.isEmpty <;> simp
    have h4 : ((prev.map (Reference.transferStep orc)).flatten).count
        (Reference.LoadEvent.firedReferenceLoadedSignal n) = 0 := by
      rw [List.count_eq_zero]
      intro hsig
      rw [List.mem_flatten] at hsig
      rcases hsig with ⟨l, hl, hsig⟩
      rw [List.mem_map] at hl
      rcases hl with ⟨name, _, rfl⟩
      exact signal_not_mem_transferStep orc name n hsig
    have h5 : ([Reference.LoadEvent.setFileName f,
        Reference.LoadEvent.firedReferenceLoadedSignal self]).count
        (Reference.LoadEvent.firedReferenceLoadedSignal n) = if n = self then 1 else 0 := by
      by_cases hns : n = self
      · subst hns
        simp
      · simp [List.count_cons, Ne.symm hns, hns]
    rw [h1, h2, h3, h4, h5]
    simp
  · simp only [Reference.loadInternal]
    rw [show [Reference.LoadEvent.setFileName f,
          Reference.LoadEvent.firedReferenceLoadedSignal self] =
        [Reference.LoadEvent.setFileName f] ++
          [Reference.LoadEvent.firedReferenceLoadedSignal self] from rfl]
    rw [← List.append_assoc]
    exact List.getLast?_concat _
  · simp only [Reference.loadInternal]
    cases hf : f.isEmpty <;> simp [hf]
  · intro b
    rfl

/-- Claim C7 counterexample: a load attempt whose script execution
records errors (so the trailing exception fires) still becomes the value
of `m_fileName` — refuting the claim that an errored attempt does not
become the value returned by `fileName()`. -/
theorem reference_fileName_failed_attempt_counterexample :
    (Reference.loadInternal 0 [] 0 demoOracle "b".data).1 = "b".data ∧
    (Reference.loadInternal 0 [] 0 demoOracle "b".data).2.2 = true := by
  exact ⟨rfl, rfl⟩

/-- Claim C7 (amended): after any `loadInternal` run, `m_fileName` is the
file name of that attempt, recorded unconditionally before the trailing
exception is raised — even when the script execution recorded errors. -/
theorem reference_fileName_is_last_attempt (self : Nat) (prev : List Str) (cnt : Nat)
    (orc : Reference.LoadOracle) (f : Str) :
    (Reference.loadInternal self prev cnt orc f).1 = f := rfl

/-- Claim C8: for every temporarily renamed old plug, the reconciliation
loop removes it from its parent whether or not a matching new plug exists
and whether or not the transfer succeeded; a throwing transfer is logged
as a warning and does not stop the loop, and a successful transfer is
recorded. -/
theorem reference_loadInternal_transfer_resilient (self : Nat) (prev : List Str) (cnt : Nat)
    (orc : Reference.LoadOracle) (f : Str) (name : Str) (hmem : name ∈ prev) :
    Reference.LoadEvent.removedOldPlug name ∈ (Reference.loadInternal self prev cnt orc f).2.1 ∧
    (orc.newPlugFor name = true → orc.transferThrows name = true →
      Reference.LoadEvent.warned name ∈ (Reference.loadInternal self prev cnt orc f).2.1) ∧
    (orc.newPlugFor name = true → orc.transferThrows name = false →
      Reference.LoadEvent.transferredPlug name ∈
        (Reference.loadInternal self prev cnt orc f).2.1) := by
  have hstep : ∀ ev, ev ∈ Reference.transferStep orc name →
      ev ∈ (Reference.loadInternal self prev cnt orc f).2.1 := by
    intro ev hev
    have hfl : ev ∈ (prev.map (Reference.transferStep orc)).flatten :=
      List.mem_flatten.mpr ⟨Reference.transferStep orc name, List.mem_map_of_mem _ hmem, hev⟩
    simp only [Reference.loadInternal, List.mem_append]
    tauto
  refine ⟨hstep _ ?_, fun h1 h2 => hstep _ ?_, fun h1 h2 => hstep _ ?_⟩
  · simp [Reference.transferStep]
  · simp [Reference.transferStep, h1, h2]
  · simp [Reference.transferStep, h1, h2]

/-- Witness for C8: the old plug `"p"` has a matching new plug whose
transfer throws; the old plug `"q"` matches nothing; both are removed and
the failure of `"p"` is only a warning. -/
theorem reference_loadInternal_transfer_resilient_witness :
    Reference.LoadEvent.removedOldPlug "p".data ∈
      (Reference.loadInternal 0 ["p".data, "q".data] 1 demoOracle2 "f".data).2.1 ∧
    Reference.LoadEvent.warned "p".data ∈
      (Reference.loadInternal 0 ["p".data, "q".data] 1 demoOracle2 "f".data).2.1 ∧
    Reference.LoadEvent.removedOldPlug "q".data ∈
      (Reference.loadInternal 0 ["p".data, "q".data] 1 demoOracle2 "f".data).2.1 := by
  have hp := reference_loadInternal_transfer_resilient 0 ["p".data, "q".data] 1 demoOracle2
    "f".data "p".data (by decide)
  have hq := reference_loadInternal_transfer_resilient 0 ["p".data, "q".data] 1 demoOracle2
    "f".data "q".data (by decide)
  exact ⟨hp.1, hp.2.1 (by decide) (by decide), hq.1⟩

/-- Claim C9: `Reference::load` on a node with no owning `ScriptNode`
raises immediately: the result is the bare exception, with no renamed
plug, no removed child node, no executed file and no fired signal. -/
theorem reference_load_without_script_throws (self : Nat) (prev : List Str) (cnt : Nat)
    (orc : Reference.LoadOracle) (f : Str) :
    Reference.load none self prev cnt orc f =
      Except.error "Reference::load called without ScriptNode" := rfl
